import Mathlib

/-!
# Shallow embedding of the wikistats enrichment pipeline

This file embeds `src/wikistats/enrichment/wikidata_enrichment.py` in Lean 4
and proves properties of the enrichment pipeline: identifier resolution
(`get_wikidata_id`), classification extraction (`extract` / `extract_qids`),
the batched detail fetcher (`get_wikidata_labels_batch`), the per-record
cache (`enrich_article_cached`), the entity-store merger
(`merge_entity_data`) and the orchestrator (`enrich`).

Network interaction is modelled by oracle functions passed explicitly: an
oracle returning `none` (or `.error`) stands for a `requests.RequestException`
(network failure, non-2xx status via `raise_for_status`, or an unparsable
body); a `some` result stands for the decoded JSON payload.  Each embedded
operation additionally reports the number of HTTP exchanges it performs, so
that "makes zero network calls" is a provable statement.
-/

namespace Wikistats

/-! ## Raw claim data (JSON fragments of the Wikidata API) -/

/-- A `mainsnak.datavalue` object of a raw claim: its `type` tag and, for
entity-id values, the `value.id` field. -/
structure Datavalue where
  dtype : String
  id : String
deriving DecidableEq, Repr

/-- One claim under a property.  `datavalue` is `none` when the mainsnak
carries no datavalue (the Python code reads it with `.get`, defaulting to an
empty dict whose `type` matches nothing). -/
structure Claim where
  datavalue : Option Datavalue
deriving DecidableEq, Repr

/-- The `claims` dictionary of an entity: property id to list of claims. -/
abbrev Claims := List (String × List Claim)

/-- Dictionary key lookup on the raw claims structure (`prop in claims` /
`claims[prop]` in the source). -/
def lookupClaims (claims : Claims) (prop : String) : Option (List Claim) :=
  (claims.find? (fun p => p.1 == prop)).map Prod.snd

/-- The filtering loop shared by `extract` and `extract_qids` in the source:
keep `datavalue.value.id` for exactly those claims whose
`datavalue.type == "wikibase-entityid"`. -/
def claimIds (cs : List Claim) : List String :=
  cs.filterMap (fun c =>
    match c.datavalue with
    | some dv => if dv.dtype == "wikibase-entityid" then some dv.id else none
    | none => none)

/-- `extract(prop)` from `get_wikidata_classification`: `None` when the
property is absent, otherwise the filtered id list, collapsed to `None`
when empty (`return values or None`). -/
def extract (claims : Claims) (prop : String) : Option (List String) :=
  match lookupClaims claims prop with
  | none => none
  | some cs =>
    let values := claimIds cs
    if values.isEmpty then none else some values

/-- `extract_qids(prop)` from `get_wikidata_labels_batch`; its body is
textually identical to `extract` (`return values if values else None`). -/
def extract_qids (claims : Claims) (prop : String) : Option (List String) :=
  extract claims prop

/-! ## Identifier resolver (`get_wikidata_id`) -/

/-- The project-suffix table of `get_wikidata_id`. -/
def projects : List String :=
  ["wikipedia", "wikidata", "commons", "wikivoyage", "wiktionary",
   "wikisource", "wikibooks", "wikiquote", "wikinews"]

/-- Host chosen for a matched project suffix; `lang` is the wiki-code stem
with the project suffix removed. -/
def hostForProject (stem proj : String) : String :=
  let lang := stem.dropRight proj.length
  if proj == "wikidata" then "www.wikidata.org"
  else if proj == "commons" then
    if lang == "" then "commons.wikimedia.org" else lang ++ ".commons.wikimedia.org"
  else if proj == "wikipedia" then
    if lang == "" then "www.wikipedia.org" else lang ++ ".wikipedia.org"
  else
    if lang == "" then proj ++ ".org" else lang ++ "." ++ proj ++ ".org"

/-- Host derivation of `get_wikidata_id`: strip a trailing `"wiki"`, find the
first matching project suffix, and otherwise fall back to treating the whole
stem as a language code on wikipedia. -/
def deriveHost (wiki : String) : String :=
  let stem := if wiki.endsWith "wiki" then wiki.dropRight 4 else wiki
  match projects.find? (fun proj => stem.endsWith proj) with
  | some proj => hostForProject stem proj
  | none => stem ++ ".wikipedia.org"

/-- One page object of the resolver response; `pageprops` is its
`pageprops` dictionary (missing modelled as `[]`, matching `.get(..., \x7b\x7d)`). -/
structure Page where
  pageprops : List (String × String)
deriving DecidableEq, Repr

/-- The decoded resolver response: the `query.pages` dictionary as an
association list from page id to page object (missing levels collapse
to `[]` via the chained `.get` calls in the source). -/
structure QueryResponse where
  pages : List (String × Page)
deriving DecidableEq, Repr

/-- String-valued dictionary lookup (`key in props` / `props[key]`). -/
def lookupStr (l : List (String × String)) (k : String) : Option String :=
  (l.find? (fun p => p.1 == k)).map Prod.snd

/-- The page loop of `get_wikidata_id`: return the first page whose
`pageprops` contains `"wikibase_item"`. -/
def findWikibaseItem : List (String × Page) → Option String
  | [] => none
  | (_, page) :: rest =>
    match lookupStr page.pageprops "wikibase_item" with
    | some v => some v
    | none => findWikibaseItem rest

/-- `get_wikidata_id(title, wiki)`.  `net host title` models the single HTTP
lookup; `none` stands for a caught `requests.RequestException` (network
failure, non-2xx, bad body), upon which the function returns `None`.  The
function is total: every failure mode yields `none`. -/
def get_wikidata_id (net : String → String → Option QueryResponse)
    (title wiki : String) : Option String :=
  match net (deriveHost wiki) title with
  | none => none
  | some data => findWikibaseItem data.pages

/-! ## Classification fetcher (`get_wikidata_classification`) -/

/-- The classification result dictionary. -/
structure Classification where
  instance_of : Option (List String)
  subclass_of : Option (List String)
deriving DecidableEq, Repr

/-- `get_wikidata_classification(qid)`.  The oracle `net qid` models the
`wbgetentities` request, returning the entity's claims dictionary; `.error`
stands for an uncaught `requests.RequestException` (the source calls
`raise_for_status()` outside any `try`).  A falsy `qid` (`None` or the empty
string) short-circuits without any request.  The `Nat` component counts HTTP
requests issued. -/
def get_wikidata_classification (net : String → Except Unit Claims)
    (qid : Option String) : Nat × Except Unit Classification :=
  match qid with
  | none => (0, .ok ⟨none, none⟩)
  | some q =>
    if q == "" then (0, .ok ⟨none, none⟩)
    else
      match net q with
      | .ok claims => (1, .ok ⟨extract claims "P31", extract claims "P279"⟩)
      | .error e => (1, .error e)

/-! ## Batch label/detail fetcher (`get_wikidata_labels_batch`) -/

/-- One entry of the entity dictionaries built by the enrichment code.  The
five fields `label` … `last_updated` are always-present dictionary keys
(`description`, `instance_of`, `subclass_of` use `Option` for a present key
holding `None`).  `first_seen_ingestion` uses `Option` for key *presence*:
the batch fetcher builds dictionaries without this key (`none`), and the
store merger adds it. -/
structure EntityDetail where
  label : String
  description : Option String
  instance_of : Option (List String)
  subclass_of : Option (List String)
  last_updated : String
  first_seen_ingestion : Option String
deriving DecidableEq, Repr

/-- Raw entity payload of one `wbgetentities` response entry, already
projected to the requested language: `labels[language].value` and
`descriptions[language].value` when present, plus the claims dictionary. -/
structure RawEntity where
  labelValue : Option String
  descriptionValue : Option String
  claims : Claims

/-- The per-entity parsing of a successful batch: label falls back to the
identifier, description may be `None`, the two relation lists use
`extract_qids`, and `last_updated` is stamped `now`. -/
def parseEntity (now qid : String) (e : RawEntity) : EntityDetail :=
  { label := e.labelValue.getD qid
    description := e.descriptionValue
    instance_of := extract_qids e.claims "P31"
    subclass_of := extract_qids e.claims "P279"
    last_updated := now
    first_seen_ingestion := none }

/-- The minimal fallback entry built for every identifier of a failed
batch. -/
def fallbackEntity (now qid : String) : EntityDetail :=
  { label := qid
    description := none
    instance_of := none
    subclass_of := none
    last_updated := now
    first_seen_ingestion := none }

/-- Fixed-size batching (`for i in range(0, len(unique_qids), batch_size)`),
by fuel on the list length; for `bs ≥ 1` the fuel never runs out. -/
def chunkGo (bs : Nat) : Nat → List String → List (List String)
  | 0, _ => []
  | _, [] => []
  | fuel + 1, l => l.take bs :: chunkGo bs fuel (l.drop bs)

/-- The batches `unique_qids[i:i+bs]` in order. -/
def batchesOf (bs : Nat) (l : List String) : List (List String) :=
  chunkGo bs l.length l

/-- Dedup-and-drop-falsy step of the batch fetcher:
`list(set(qid for qid in qids if qid))` (order of a Python set is
unspecified; only membership and uniqueness matter). -/
def uniqueQids (qids : List String) : List String :=
  (qids.filter (fun q => !(q == ""))).dedup

/-- Processing of one batch: on a decoded response, parse each returned
`(qid, entity)` pair; on a `requests.RequestException` (`none`), emit the
minimal fallback entry for every identifier of the batch. -/
def processBatch (net : List String → Option (List (String × RawEntity)))
    (now : String) (batch : List String) : List (String × EntityDetail) :=
  match net batch with
  | some resp => resp.map (fun p => (p.1, parseEntity now p.1 p.2))
  | none => batch.map (fun q => (q, fallbackEntity now q))

/-- `get_wikidata_labels_batch(qids, language, batch_size)`.  The oracle
`net batch` models one HTTP exchange per batch.  The result is the built
`entities` dictionary as an insertion-ordered association list; lookups use
`dictLookup` (last write wins, as for a Python dict). -/
def get_wikidata_labels_batch
    (net : List String → Option (List (String × RawEntity)))
    (now : String) (qids : List String) (batch_size : Nat) :
    List (String × EntityDetail) :=
  ((batchesOf batch_size (uniqueQids qids)).map (processBatch net now)).flatten

/-- Number of HTTP exchanges of one `get_wikidata_labels_batch` call: one per
batch, success or failure. -/
def batchRequestCount (batch_size : Nat) (qids : List String) : Nat :=
  (batchesOf batch_size (uniqueQids qids)).length

/-- Python-dict lookup on an insertion-ordered association list: the last
binding of a key wins. -/
def dictLookup {β : Type} : List (String × β) → String → Option β
  | [], _ => none
  | p :: rest, k =>
    match dictLookup rest k with
    | some v => some v
    | none => if p.1 == k then some p.2 else none

/-! ## Per-record enrichment and cache -/

/-- The result dictionary of `enrich_article` / `enrich_article_cached`. -/
structure ArticleResult where
  title : String
  wiki : String
  wikidata_id : Option String
  classification : Classification
deriving DecidableEq, Repr

/-- The placeholder result stored on any exception (and in offline mode). -/
def placeholderResult (title wiki : String) : ArticleResult :=
  ⟨title, wiki, none, ⟨none, none⟩⟩

/-- `enrich_article(title, wiki, fetch_remote)`.  With `fetch_remote = false`
it returns the placeholder without touching either oracle.  Otherwise it
resolves (one request, never failing — `get_wikidata_id` catches its errors)
and classifies (which may raise, modelled by `.error`).  The `Nat` counts
HTTP requests issued, raised or not. -/
def enrich_article (resolveNet : String → String → Option QueryResponse)
    (classifyNet : String → Except Unit Claims)
    (title wiki : String) (fetch_remote : Bool) :
    Nat × Except Unit ArticleResult :=
  if fetch_remote = false then
    (0, .ok (placeholderResult title wiki))
  else
    let qid := get_wikidata_id resolveNet title wiki
    let c := get_wikidata_classification classifyNet qid
    match c.2 with
    | .ok cls => (1 + c.1, .ok ⟨title, wiki, qid, cls⟩)
    | .error e => (1 + c.1, .error e)

/-- The module-level `_CACHE` dictionary, as a map from `(title, wiki)`. -/
abbrev Cache := String × String → Option ArticleResult

/-- `_CACHE[key] = result`. -/
def cacheInsert (c : Cache) (k : String × String) (v : ArticleResult) : Cache :=
  fun k' => if k' = k then some v else c k'

/-- The cache at module load (`_CACHE = \x7b\x7d`): empty. -/
def initialCache : Cache := fun _ => none

/-- Outcome of one `enrich_article_cached` call: the returned result, the
cache afterwards, the number of HTTP requests issued, and the number of
times the resolver/classifier chain (`enrich_article`) was invoked. -/
structure CachedCall where
  result : ArticleResult
  cache : Cache
  requests : Nat
  computes : Nat

/-- `enrich_article_cached(title, wiki, fetch_remote)`: return a cached
result unchanged; otherwise invoke `enrich_article`, converting any raised
exception (`except requests.RequestException` / `except Exception`) into the
safe placeholder, and store the outcome under `(title, wiki)`. -/
def enrich_article_cached (resolveNet : String → String → Option QueryResponse)
    (classifyNet : String → Except Unit Claims)
    (title wiki : String) (fetch_remote : Bool) (cache : Cache) : CachedCall :=
  let key := (title, wiki)
  match cache key with
  | some r => ⟨r, cache, 0, 0⟩
  | none =>
    let c := enrich_article resolveNet classifyNet title wiki fetch_remote
    let result :=
      match c.2 with
      | .ok r => r
      | .error _ => placeholderResult title wiki
    ⟨result, cacheInsert cache key result, c.1, 1⟩

/-! ## Entity store merger (`merge_entity_data`) -/

/-- The loaded entity store (`labels.json` decoded): a map from entity id to
its stored dictionary. -/
abbrev Store := String → Option EntityDetail

/-- `merged[qid] = entity` on the store dictionary. -/
def storeInsert (st : Store) (k : String) (v : EntityDetail) : Store :=
  fun k' => if k' = k then some v else st k'

/-- The empty store (missing `labels.json`). -/
def emptyStore : Store := fun _ => none

/-- `merged[qid].update(entity_data)`: every key present in `entity_data`
overwrites; the five always-present fields are replaced, and
`first_seen_ingestion` is replaced only when present in the new detail. -/
def pyUpdate (old new : EntityDetail) : EntityDetail :=
  { new with
    first_seen_ingestion :=
      match new.first_seen_ingestion with
      | some t => some t
      | none => old.first_seen_ingestion }

/-- The merge loop of `merge_entity_data` over `new_entities.items()`.
It returns the merged store together with the post-call contents of
`new_entities`: the source mutates each new-key detail dictionary in place
(`entity_data["first_seen_ingestion"] = ingestion_timestamp`) before
inserting it, so those entries come back with the added field. -/
def mergeLoop (st : Store) (ts : String) :
    List (String × EntityDetail) → Store × List (String × EntityDetail)
  | [] => (st, [])
  | (k, d) :: rest =>
    match st k with
    | some old =>
      let r := mergeLoop (storeInsert st k (pyUpdate old d)) ts rest
      (r.1, (k, d) :: r.2)
    | none =>
      let d' := { d with first_seen_ingestion := some ts }
      let r := mergeLoop (storeInsert st k d') ts rest
      (r.1, (k, d') :: r.2)

/-- `merge_entity_data(existing_path, new_entities, ingestion_timestamp)`.
The file read is modelled by taking the decoded existing store as the first
argument; the function performs no other I/O.  Component `.1` is the merged
store, component `.2` the post-call state of the `new_entities` argument. -/
def merge_entity_data (existing : Store)
    (new_entities : List (String × EntityDetail)) (ingestion_timestamp : String) :
    Store × List (String × EntityDetail) :=
  mergeLoop existing ingestion_timestamp new_entities

/-! ## Pipeline orchestrator (`enrich`) -/

/-- A raw input record (title and wiki code; passthrough fields are not
modelled). -/
structure RawRecord where
  title : String
  wiki : String
deriving DecidableEq, Repr

/-- One enriched output row: the record plus `wikidata_id` and the two
always-list-valued relation fields. -/
structure EnrichedRecord where
  title : String
  wiki : String
  wikidata_id : Option String
  instance_of : List String
  subclass_of : List String
deriving DecidableEq, Repr

/-- Python `x or []` on a relation field: `None` and the empty list both
become `[]`. -/
def pyOrNil (o : Option (List String)) : List String :=
  match o with
  | none => []
  | some l => if l.isEmpty then [] else l

/-- Orchestrator state threaded through the record loop: the module cache,
the running `all_qids` set, and the number of HTTP requests issued so
far. -/
structure OrchState where
  cache : Cache
  all_qids : Finset String
  requests : Nat

/-- The orchestrator state at the start of a run: empty cache (module
load), empty identifier set, no requests issued. -/
def initOrchState : OrchState :=
  ⟨initialCache, ∅, 0⟩

/-- The per-record body of the `enrich` loop: cached enrichment, `or []`
conversion of the two relation fields, accumulation of their identifiers
into `all_qids`, and construction of the output row.  The record's own
`wikidata_id` is written to the row but not added to `all_qids`. -/
def processRecord (resolveNet : String → String → Option QueryResponse)
    (classifyNet : String → Except Unit Claims) (fetch_remote : Bool)
    (st : OrchState) (r : RawRecord) : OrchState × EnrichedRecord :=
  let c := enrich_article_cached resolveNet classifyNet r.title r.wiki fetch_remote st.cache
  let il := pyOrNil c.result.classification.instance_of
  let sl := pyOrNil c.result.classification.subclass_of
  (⟨c.cache, st.all_qids ∪ il.toFinset ∪ sl.toFinset, st.requests + c.requests⟩,
   ⟨r.title, r.wiki, c.result.wikidata_id, il, sl⟩)

/-- The record loop over one input file. -/
def processFile (resolveNet : String → String → Option QueryResponse)
    (classifyNet : String → Except Unit Claims) (fetch_remote : Bool)
    (st : OrchState) : List RawRecord → OrchState × List EnrichedRecord
  | [] => (st, [])
  | r :: rest =>
    let p := processRecord resolveNet classifyNet fetch_remote st r
    let q := processFile resolveNet classifyNet fetch_remote p.1 rest
    (q.1, p.2 :: q.2)

/-- The file loop of `enrich`: one enriched output file per input file. -/
def processFiles (resolveNet : String → String → Option QueryResponse)
    (classifyNet : String → Except Unit Claims) (fetch_remote : Bool)
    (st : OrchState) : List (List RawRecord) → OrchState × List (List EnrichedRecord)
  | [] => (st, [])
  | f :: rest =>
    let p := processFile resolveNet classifyNet fetch_remote st f
    let q := processFiles resolveNet classifyNet fetch_remote p.1 rest
    (q.1, p.2 :: q.2)

/-- Observable outcome of one `enrich(files, fetch_remote)` run. -/
structure EnrichOutput where
  outputs : List (List EnrichedRecord)
  all_qids : Finset String
  batchFetches : Nat
  details : List (String × EntityDetail)
  requests : Nat
  store : Store
  wroteStore : Bool

/-- `enrich(files, fetch_remote)`: process every file from a fresh run state
(empty cache), then — only when `fetch_remote` holds and the collected
identifier set is non-empty — issue the single end-of-run batch-detail fetch
for `list(all_qids)`, merge it into the existing store with the run's single
ingestion timestamp, and mark the store written.  `existing` is the decoded
persisted store, `now` the detail-fetch timestamp, `ts` the run's ingestion
timestamp. -/
def enrich (resolveNet : String → String → Option QueryResponse)
    (classifyNet : String → Except Unit Claims)
    (batchNet : List String → Option (List (String × RawEntity)))
    (now ts : String) (existing : Store)
    (files : List (List RawRecord)) (fetch_remote : Bool) : EnrichOutput :=
  let p := processFiles resolveNet classifyNet fetch_remote initOrchState files
  if fetch_remote = true ∧ p.1.all_qids ≠ ∅ then
    let qidList := p.1.all_qids.sort (fun a b => a ≤ b)
    let new_entities := get_wikidata_labels_batch batchNet now qidList 50
    let merged := (merge_entity_data existing new_entities ts).1
    ⟨p.2, p.1.all_qids, 1, new_entities,
      p.1.requests + batchRequestCount 50 qidList, merged, true⟩
  else
    ⟨p.2, p.1.all_qids, 0, [], p.1.requests, existing, false⟩

/-! ## Proof-support predicate and concrete test fixtures -/

/-- Every result stored in the cache carries a null identifier and empty
classification — the shape of everything cached during an offline run. -/
def CacheOffline (c : Cache) : Prop :=
  ∀ k r, c k = some r → r.wikidata_id = none ∧ r.classification = ⟨none, none⟩

/-- Resolver oracle for the spec's Paris example: every lookup resolves to
`Q90`. -/
def resolveNetParis : String → String → Option QueryResponse :=
  fun _ _ => some ⟨[("1", ⟨[("wikibase_item", "Q90")]⟩)]⟩

/-- Classifier oracle for the Paris example: `Q90` is an instance of
`Q515`; anything else fails. -/
def classifyNetParis : String → Except Unit Claims :=
  fun q =>
    if q == "Q90" then .ok [("P31", [⟨some ⟨"wikibase-entityid", "Q515"⟩⟩])]
    else .error ()

/-- Batch-detail oracle whose every request fails. -/
def batchNetFail : List String → Option (List (String × RawEntity)) :=
  fun _ => none

/-- One input file holding the spec's example record. -/
def parisFiles : List (List RawRecord) := [[⟨"Paris", "enwiki"⟩]]

/-- A concrete raw entity payload for `Q2`. -/
def rawQ2 : RawEntity := ⟨some "two", some "a number", []⟩

/-- Batch-detail oracle where the request for batch `["Q2"]` succeeds and
every other batch fails. -/
def batchNetC3 : List String → Option (List (String × RawEntity)) :=
  fun b => if b = ["Q2"] then some [("Q2", rawQ2)] else none

/-- Classifier oracle whose every request raises. -/
def classifyNetFail : String → Except Unit Claims := fun _ => .error ()

/-- Resolver oracle resolving everything to `Q1`. -/
def resolveNetQ1 : String → String → Option QueryResponse :=
  fun _ _ => some ⟨[("1", ⟨[("wikibase_item", "Q1")]⟩)]⟩

/-- A concrete fetched detail without `first_seen_ingestion`. -/
def detailA : EntityDetail := ⟨"Alpha", some "d", none, none, "LU1", none⟩

/-- Another concrete fetched detail without `first_seen_ingestion`. -/
def detailB : EntityDetail := ⟨"Beta", none, some ["Q9"], none, "LU2", none⟩

/-- A concrete stored detail whose `first_seen_ingestion` was set at `T0`. -/
def storedOld : EntityDetail := ⟨"OldAlpha", none, none, none, "LU0", some "T0"⟩

/-- A store holding `storedOld` under `Q1`. -/
def storeC1 : Store := storeInsert emptyStore "Q1" storedOld

/-- A concrete claims dictionary: `P31` holds one entity-id value, one
string-typed value and one claim without a datavalue; `P279` is absent. -/
def claimsC7 : Claims :=
  [("P31", [⟨some ⟨"wikibase-entityid", "Q5"⟩⟩, ⟨some ⟨"string", "x"⟩⟩, ⟨none⟩])]

/-- Resolver-network oracle whose every request fails. -/
def netNoneC8 : String → String → Option QueryResponse := fun _ _ => none

/-- Resolver-network oracle answering with pages none of which carries a
`wikibase_item` page property. -/
def netNoItemC8 : String → String → Option QueryResponse :=
  fun _ _ => some ⟨[("1", ⟨[]⟩), ("2", ⟨[("x", "y")]⟩)]⟩

/-- A cached result whose classification is `instance_of = None` and
`subclass_of = []` (after filtering). -/
def resultC10 : ArticleResult := ⟨"A", "enwiki", some "Q7", ⟨none, some []⟩⟩

/-- An orchestrator state whose cache already holds `resultC10`. -/
def stC10 : OrchState := ⟨cacheInsert initialCache ("A", "enwiki") resultC10, ∅, 0⟩

/-! ## Association-list and batching lemmas -/

theorem dictLookup_append {β : Type} (xs ys : List (String × β)) (k : String) :
    dictLookup (xs ++ ys) k =
      match dictLookup ys k with
      | some v => some v
      | none => dictLookup xs k := by
  induction xs with
  | nil =>
    simp only [List.nil_append]
    cases dictLookup ys k <;> simp [dictLookup]
  | cons p rest ih =>
    simp only [List.cons_append, dictLookup, List.append_eq]
    rw [ih]
    cases dictLookup ys k <;> cases dictLookup rest k <;> rfl

theorem dictLookup_eq_none {β : Type} (l : List (String × β)) (k : String)
    (h : ∀ p ∈ l, p.1 ≠ k) : dictLookup l k = none := by
  induction l with
  | nil => rfl
  | cons p rest ih =>
    have hp : p.1 ≠ k := h p (List.mem_cons_self p rest)
    have hrest := ih (fun q hq => h q (List.mem_cons_of_mem p hq))
    simp [dictLookup, hrest, hp]

theorem dictLookup_map_self {β : Type} (g : String → β) (s : List String)
    (k : String) (hk : k ∈ s) :
    dictLookup (s.map (fun x => (x, g x))) k = some (g k) := by
  induction s with
  | nil => cases hk
  | cons a t ih =>
    by_cases hmem : k ∈ t
    · simp [dictLookup, ih hmem]
    · have hak : a = k := by
        rcases List.mem_cons.mp hk with h | h
        · exact h.symm
        · exact absurd h hmem
      have hnone : dictLookup (t.map (fun x => (x, g x))) k = none := by
        refine dictLookup_eq_none _ _ ?_
        intro p hp
        rcases List.mem_map.mp hp with ⟨x, hx, hxp⟩
        intro hcontra
        exact hmem (by rw [← hcontra, ← hxp]; exact hx)
      subst hak
      simp [dictLookup, hnone]

theorem dictLookup_assoc_nodup {β : Type} (l : List (String × β)) (k : String)
    (v : β) (hnd : (l.map Prod.fst).Nodup) (hmem : (k, v) ∈ l) :
    dictLookup l k = some v := by
  induction l with
  | nil => cases hmem
  | cons p rest ih =>
    rcases List.mem_cons.mp hmem with h | h
    · have hk1 : p.1 = k := by rw [← h]
      have hv : p.2 = v := by rw [← h]
      have hknotin : p.1 ∉ rest.map Prod.fst := (List.nodup_cons.mp hnd).1
      have hnone : dictLookup rest k = none := by
        refine dictLookup_eq_none _ _ ?_
        intro q hq hcontra
        apply hknotin
        rw [hk1, ← hcontra]
        exact List.mem_map_of_mem Prod.fst hq
      simp [dictLookup, hnone, hk1, hv]
    · have := ih (List.nodup_cons.mp hnd).2 h
      simp [dictLookup, this]

theorem chunkGo_flatten (bs : Nat) (hbs : 1 ≤ bs) :
    ∀ fuel l, l.length ≤ fuel → (chunkGo bs fuel l).flatten = l := by
  intro fuel
  induction fuel with
  | zero =>
    intro l hl
    have : l = [] := List.eq_nil_of_length_eq_zero (Nat.le_zero.mp hl)
    subst this
    rfl
  | succ n ih =>
    intro l hl
    cases l with
    | nil => rfl
    | cons a t =>
      have hdrop : ((a :: t).drop bs).length ≤ n := by
        rw [List.length_drop]
        simp only [List.length_cons] at hl ⊢
        omega
      simp only [chunkGo, List.flatten_cons, ih _ hdrop, List.take_append_drop]

theorem batchesOf_flatten (bs : Nat) (hbs : 1 ≤ bs) (l : List String) :
    (batchesOf bs l).flatten = l :=
  chunkGo_flatten bs hbs l.length l (Nat.le_refl _)

theorem uniqueQids_nodup (qids : List String) : (uniqueQids qids).Nodup :=
  List.nodup_dedup _

theorem mergeLoop_fst_not_mem (ts q : String) :
    ∀ (new : List (String × EntityDetail)) (st : Store),
      (∀ p ∈ new, p.1 ≠ q) → (mergeLoop st ts new).1 q = st q := by
  intro new
  induction new with
  | nil => intro st _; rfl
  | cons p rest ih =>
    intro st h
    obtain ⟨k, d⟩ := p
    have hk : k ≠ q := h (k, d) (List.mem_cons_self _ _)
    have hrest : ∀ p ∈ rest, p.1 ≠ q := fun p hp => h p (List.mem_cons_of_mem _ hp)
    cases hst : st k with
    | some old =>
      simp only [mergeLoop, hst]
      rw [ih _ hrest]
      simp [storeInsert, Ne.symm hk]
    | none =>
      simp only [mergeLoop, hst]
      rw [ih _ hrest]
      simp [storeInsert, Ne.symm hk]

theorem mergeLoop_preserves_first_seen (ts q : String) :
    ∀ (new : List (String × EntityDetail)) (st : Store) (old : EntityDetail),
      (∀ p ∈ new, p.2.first_seen_ingestion = none) → st q = some old →
      ∃ e, (mergeLoop st ts new).1 q = some e ∧
        e.first_seen_ingestion = old.first_seen_ingestion := by
  intro new
  induction new with
  | nil => exact fun st old _ hq => ⟨old, hq, rfl⟩
  | cons p rest ih =>
    intro st old h hq
    obtain ⟨k, d⟩ := p
    have hd : d.first_seen_ingestion = none := h (k, d) (List.mem_cons_self _ _)
    have hrest : ∀ p ∈ rest, p.2.first_seen_ingestion = none :=
      fun p hp => h p (List.mem_cons_of_mem _ hp)
    cases hst : st k with
    | some oldk =>
      simp only [mergeLoop, hst]
      by_cases hqk : q = k
      · have holdk : oldk = old := by
          rw [hqk, hst] at hq
          exact Option.some_injective _ hq
        have hlook : storeInsert st k (pyUpdate oldk d) q = some (pyUpdate oldk d) := by
          simp [storeInsert, hqk]
        obtain ⟨e, he, hfs⟩ := ih _ _ hrest hlook
        refine ⟨e, he, ?_⟩
        rw [hfs]
        simp [pyUpdate, hd, holdk]
      · have hlook : storeInsert st k (pyUpdate oldk d) q = some old := by
          simp [storeInsert, hqk, hq]
        exact ih _ _ hrest hlook
    | none =>
      simp only [mergeLoop, hst]
      have hqk : q ≠ k := by
        intro hcontra
        rw [hcontra, hst] at hq
        cases hq
      have hlook : storeInsert st k { d with first_seen_ingestion := some ts } q = some old := by
        simp [storeInsert, hqk, hq]
      exact ih _ _ hrest hlook

theorem mergeLoop_existing_key (ts q : String) (d : EntityDetail) :
    ∀ (new : List (String × EntityDetail)) (st : Store) (old : EntityDetail),
      (new.map Prod.fst).Nodup → (q, d) ∈ new → st q = some old →
      (mergeLoop st ts new).1 q = some (pyUpdate old d) := by
  intro new
  induction new with
  | nil => intro st old _ hmem; cases hmem
  | cons p rest ih =>
    intro st old hnd hmem hq
    obtain ⟨k, e⟩ := p
    rcases List.mem_cons.mp hmem with h | h
    · injection h with h1 h2
      subst h1
      subst h2
      simp only [mergeLoop, hq]
      have hrest : ∀ p ∈ rest, p.1 ≠ q := by
        intro p hp hcontra
        have hkn : q ∉ rest.map Prod.fst := (List.nodup_cons.mp hnd).1
        exact hkn (by rw [← hcontra]; exact List.mem_map_of_mem Prod.fst hp)
      rw [mergeLoop_fst_not_mem ts q rest _ hrest]
      simp [storeInsert]
    · have hkq : k ≠ q := by
        intro hcontra
        have hkn : k ∉ rest.map Prod.fst := (List.nodup_cons.mp hnd).1
        apply hkn
        rw [hcontra]
        exact List.mem_map_of_mem Prod.fst h
      cases hst : st k with
      | some oldk =>
        simp only [mergeLoop, hst]
        refine ih _ old (List.nodup_cons.mp hnd).2 h ?_
        simp [storeInsert, Ne.symm hkq, hq]
      | none =>
        simp only [mergeLoop, hst]
        refine ih _ old (List.nodup_cons.mp hnd).2 h ?_
        simp [storeInsert, Ne.symm hkq, hq]

theorem mergeLoop_new_key (ts q : String) (d : EntityDetail) :
    ∀ (new : List (String × EntityDetail)) (st : Store),
      (new.map Prod.fst).Nodup → (q, d) ∈ new → st q = none →
      (mergeLoop st ts new).1 q = some { d with first_seen_ingestion := some ts } := by
  intro new
  induction new with
  | nil => intro st _ hmem; cases hmem
  | cons p rest ih =>
    intro st hnd hmem hq
    obtain ⟨k, e⟩ := p
    rcases List.mem_cons.mp hmem with h | h
    · injection h with h1 h2
      subst h1
      subst h2
      simp only [mergeLoop, hq]
      have hrest : ∀ p ∈ rest, p.1 ≠ q := by
        intro p hp hcontra
        have hkn : q ∉ rest.map Prod.fst := (List.nodup_cons.mp hnd).1
        exact hkn (by rw [← hcontra]; exact List.mem_map_of_mem Prod.fst hp)
      rw [mergeLoop_fst_not_mem ts q rest _ hrest]
      simp [storeInsert]
    · have hkq : k ≠ q := by
        intro hcontra
        have hkn : k ∉ rest.map Prod.fst := (List.nodup_cons.mp hnd).1
        apply hkn
        rw [hcontra]
        exact List.mem_map_of_mem Prod.fst h
      cases hst : st k with
      | some oldk =>
        simp only [mergeLoop, hst]
        refine ih _ (List.nodup_cons.mp hnd).2 h ?_
        simp [storeInsert, Ne.symm hkq, hq]
      | none =>
        simp only [mergeLoop, hst]
        refine ih _ (List.nodup_cons.mp hnd).2 h ?_
        simp [storeInsert, Ne.symm hkq, hq]

theorem mergeLoop_snd_characterization (ts : String) :
    ∀ (new : List (String × EntityDetail)) (st : Store),
      (new.map Prod.fst).Nodup →
      (mergeLoop st ts new).2 =
        new.map (fun p =>
          if (st p.1).isSome then p
          else (p.1, { p.2 with first_seen_ingestion := some ts })) := by
  intro new
  induction new with
  | nil => intro st _; rfl
  | cons p rest ih =>
    intro st hnd
    obtain ⟨k, d⟩ := p
    have hkn : k ∉ rest.map Prod.fst := (List.nodup_cons.mp hnd).1
    have hsame : ∀ (v : EntityDetail) (p : String × EntityDetail), p ∈ rest →
        storeInsert st k v p.1 = st p.1 := by
      intro v p hp
      have hne : p.1 ≠ k := by
        intro hcontra
        exact hkn (by rw [← hcontra]; exact List.mem_map_of_mem Prod.fst hp)
      simp [storeInsert, hne]
    cases hst : st k with
    | some old =>
      simp only [mergeLoop, hst, List.map_cons]
      have htail :
          (mergeLoop (storeInsert st k (pyUpdate old d)) ts rest).2 =
            rest.map (fun p =>
              if (st p.1).isSome then p
              else (p.1, { p.2 with first_seen_ingestion := some ts })) := by
        rw [ih _ (List.nodup_cons.mp hnd).2]
        apply List.map_congr_left
        intro p hp
        rw [hsame (pyUpdate old d) p hp]
      rw [htail]
      simp [hst]
    | none =>
      simp only [mergeLoop, hst, List.map_cons]
      have htail :
          (mergeLoop (storeInsert st k { d with first_seen_ingestion := some ts }) ts rest).2 =
            rest.map (fun p =>
              if (st p.1).isSome then p
              else (p.1, { p.2 with first_seen_ingestion := some ts })) := by
        rw [ih _ (List.nodup_cons.mp hnd).2]
        apply List.map_congr_left
        intro p hp
        rw [hsame _ p hp]
      rw [htail]
      simp [hst]

theorem processBatch_keys (net : List String → Option (List (String × RawEntity)))
    (now : String) (b : List String)
    (hresp : ∀ resp, net b = some resp → resp.map Prod.fst = b) :
    ∀ p ∈ processBatch net now b, p.1 ∈ b := by
  intro p hp
  unfold processBatch at hp
  cases hnet : net b with
  | none =>
    rw [hnet] at hp
    rcases List.mem_map.mp hp with ⟨x, hx, hxp⟩
    rw [← hxp]
    exact hx
  | some resp =>
    rw [hnet] at hp
    rcases List.mem_map.mp hp with ⟨x, hx, hxp⟩
    have : p.1 = x.1 := by rw [← hxp]
    rw [this, ← hresp resp hnet]
    exact List.mem_map_of_mem Prod.fst hx

theorem fetcher_no_first_seen (net : List String → Option (List (String × RawEntity)))
    (now : String) (qids : List String) (bs : Nat) :
    ∀ p ∈ get_wikidata_labels_batch net now qids bs,
      p.2.first_seen_ingestion = none := by
  intro p hp
  unfold get_wikidata_labels_batch at hp
  rcases List.mem_flatten.mp hp with ⟨seg, hseg, hpseg⟩
  rcases List.mem_map.mp hseg with ⟨b, _, hbseg⟩
  rw [← hbseg] at hpseg
  unfold processBatch at hpseg
  cases hnet : net b with
  | none =>
    rw [hnet] at hpseg
    rcases List.mem_map.mp hpseg with ⟨x, _, hxp⟩
    rw [← hxp]
    rfl
  | some resp =>
    rw [hnet] at hpseg
    rcases List.mem_map.mp hpseg with ⟨x, _, hxp⟩
    rw [← hxp]
    rfl

theorem mergeRuns_preserve_first_seen (q : String) :
    ∀ (runs : List (List (String × EntityDetail) × String)) (st : Store)
      (old : EntityDetail),
      (∀ r ∈ runs, ∀ p ∈ r.1, p.2.first_seen_ingestion = none) →
      st q = some old →
      ∃ e, (runs.foldl (fun s r => (merge_entity_data s r.1 r.2).1) st) q = some e ∧
        e.first_seen_ingestion = old.first_seen_ingestion := by
  intro runs
  induction runs with
  | nil => exact fun st old _ hq => ⟨old, hq, rfl⟩
  | cons r rest ih =>
    intro st old h hq
    obtain ⟨e1, he1, hfs1⟩ :=
      mergeLoop_preserves_first_seen r.2 q r.1 st old
        (h r (List.mem_cons_self _ _)) hq
    obtain ⟨e2, he2, hfs2⟩ :=
      ih _ e1 (fun p hp => h p (List.mem_cons_of_mem _ hp)) he1
    exact ⟨e2, he2, hfs2.trans hfs1⟩

/-! ## Offline-run lemmas -/

theorem enrich_article_offline (res : String → String → Option QueryResponse)
    (cls : String → Except Unit Claims) (t w : String) :
    enrich_article res cls t w false = (0, .ok (placeholderResult t w)) := rfl

theorem offline_record (res : String → String → Option QueryResponse)
    (cls : String → Except Unit Claims) (st : OrchState) (r : RawRecord)
    (hc : CacheOffline st.cache) :
    CacheOffline (processRecord res cls false st r).1.cache ∧
    (processRecord res cls false st r).1.requests = st.requests ∧
    (processRecord res cls false st r).2.wikidata_id = none ∧
    (processRecord res cls false st r).2.instance_of = [] ∧
    (processRecord res cls false st r).2.subclass_of = [] := by
  unfold processRecord
  cases hcase : st.cache (r.title, r.wiki) with
  | some v =>
    obtain ⟨h1, h2⟩ := hc _ v hcase
    simp only [enrich_article_cached, hcase]
    refine ⟨hc, Nat.add_zero _, h1, ?_, ?_⟩
    · rw [h2]
      rfl
    · rw [h2]
      rfl
  | none =>
    simp only [enrich_article_cached, hcase, enrich_article_offline]
    refine ⟨?_, Nat.add_zero _, rfl, rfl, rfl⟩
    intro k v hkv
    by_cases hkey : k = (r.title, r.wiki)
    · rw [hkey] at hkv
      simp only [cacheInsert, if_pos rfl] at hkv
      have : placeholderResult r.title r.wiki = v := Option.some_injective _ hkv
      rw [← this]
      exact ⟨rfl, rfl⟩
    · simp only [cacheInsert, if_neg hkey] at hkv
      exact hc _ v hkv

theorem offline_file (res : String → String → Option QueryResponse)
    (cls : String → Except Unit Claims) :
    ∀ (recs : List RawRecord) (st : OrchState), CacheOffline st.cache →
      CacheOffline (processFile res cls false st recs).1.cache ∧
      (processFile res cls false st recs).1.requests = st.requests ∧
      ∀ er ∈ (processFile res cls false st recs).2,
        er.wikidata_id = none ∧ er.instance_of = [] ∧ er.subclass_of = [] := by
  intro recs
  induction recs with
  | nil =>
    intro st hc
    exact ⟨hc, rfl, fun er her => absurd her (List.not_mem_nil er)⟩
  | cons r rest ih =>
    intro st hc
    obtain ⟨hc1, hr1, hw, hi, hs⟩ := offline_record res cls st r hc
    obtain ⟨hc2, hr2, hout⟩ := ih (processRecord res cls false st r).1 hc1
    simp only [processFile]
    refine ⟨hc2, hr2.trans hr1, ?_⟩
    intro er her
    rcases List.mem_cons.mp her with h | h
    · rw [h]
      exact ⟨hw, hi, hs⟩
    · exact hout er h

theorem offline_files (res : String → String → Option QueryResponse)
    (cls : String → Except Unit Claims) :
    ∀ (files : List (List RawRecord)) (st : OrchState), CacheOffline st.cache →
      CacheOffline (processFiles res cls false st files).1.cache ∧
      (processFiles res cls false st files).1.requests = st.requests ∧
      ∀ recs ∈ (processFiles res cls false st files).2, ∀ er ∈ recs,
        er.wikidata_id = none ∧ er.instance_of = [] ∧ er.subclass_of = [] := by
  intro files
  induction files with
  | nil =>
    intro st hc
    exact ⟨hc, rfl, fun recs hrecs => absurd hrecs (List.not_mem_nil recs)⟩
  | cons f rest ih =>
    intro st hc
    obtain ⟨hc1, hr1, hout1⟩ := offline_file res cls f st hc
    obtain ⟨hc2, hr2, hout2⟩ := ih (processFile res cls false st f).1 hc1
    simp only [processFiles]
    refine ⟨hc2, hr2.trans hr1, ?_⟩
    intro recs hrecs
    rcases List.mem_cons.mp hrecs with h | h
    · rw [h]
      exact hout1
    · exact hout2 recs h

/-! ## Identifier-collection lemmas -/

theorem processRecord_mono (res : String → String → Option QueryResponse)
    (cls : String → Except Unit Claims) (fr : Bool) (st : OrchState) (r : RawRecord) :
    st.all_qids ⊆ (processRecord res cls fr st r).1.all_qids :=
  Finset.subset_union_left.trans Finset.subset_union_left

theorem processRecord_outputs (res : String → String → Option QueryResponse)
    (cls : String → Except Unit Claims) (fr : Bool) (st : OrchState) (r : RawRecord) :
    (∀ x ∈ (processRecord res cls fr st r).2.instance_of,
       x ∈ (processRecord res cls fr st r).1.all_qids) ∧
    (∀ x ∈ (processRecord res cls fr st r).2.subclass_of,
       x ∈ (processRecord res cls fr st r).1.all_qids) := by
  constructor
  · intro x hx
    exact Finset.mem_union_left _ (Finset.mem_union_right _ (List.mem_toFinset.mpr hx))
  · intro x hx
    exact Finset.mem_union_right _ (List.mem_toFinset.mpr hx)

theorem processFile_mono (res : String → String → Option QueryResponse)
    (cls : String → Except Unit Claims) (fr : Bool) :
    ∀ (recs : List RawRecord) (st : OrchState),
      st.all_qids ⊆ (processFile res cls fr st recs).1.all_qids := by
  intro recs
  induction recs with
  | nil => intro st; exact Finset.Subset.refl _
  | cons r rest ih =>
    intro st
    exact (processRecord_mono res cls fr st r).trans
      (ih (processRecord res cls fr st r).1)

theorem processFile_outputs (res : String → String → Option QueryResponse)
    (cls : String → Except Unit Claims) (fr : Bool) :
    ∀ (recs : List RawRecord) (st : OrchState),
      ∀ er ∈ (processFile res cls fr st recs).2,
        (∀ x ∈ er.instance_of, x ∈ (processFile res cls fr st recs).1.all_qids) ∧
        (∀ x ∈ er.subclass_of, x ∈ (processFile res cls fr st recs).1.all_qids) := by
  intro recs
  induction recs with
  | nil => intro st er her; exact absurd her (List.not_mem_nil er)
  | cons r rest ih =>
    intro st er her
    simp only [processFile] at her ⊢
    rcases List.mem_cons.mp her with h | h
    · obtain ⟨hi, hs⟩ := processRecord_outputs res cls fr st r
      have hmono := processFile_mono res cls fr rest (processRecord res cls fr st r).1
      rw [h]
      exact ⟨fun x hx => hmono (hi x hx), fun x hx => hmono (hs x hx)⟩
    · exact ih (processRecord res cls fr st r).1 er h

theorem processFiles_mono (res : String → String → Option QueryResponse)
    (cls : String → Except Unit Claims) (fr : Bool) :
    ∀ (files : List (List RawRecord)) (st : OrchState),
      st.all_qids ⊆ (processFiles res cls fr st files).1.all_qids := by
  intro files
  induction files with
  | nil => intro st; exact Finset.Subset.refl _
  | cons f rest ih =>
    intro st
    exact (processFile_mono res cls fr f st).trans
      (ih (processFile res cls fr st f).1)

theorem processFiles_outputs (res : String → String → Option QueryResponse)
    (cls : String → Except Unit Claims) (fr : Bool) :
    ∀ (files : List (List RawRecord)) (st : OrchState),
      ∀ recs ∈ (processFiles res cls fr st files).2, ∀ er ∈ recs,
        (∀ x ∈ er.instance_of, x ∈ (processFiles res cls fr st files).1.all_qids) ∧
        (∀ x ∈ er.subclass_of, x ∈ (processFiles res cls fr st files).1.all_qids) := by
  intro files
  induction files with
  | nil => intro st recs hrecs; exact absurd hrecs (List.not_mem_nil recs)
  | cons f rest ih =>
    intro st recs hrecs er her
    simp only [processFiles] at hrecs ⊢
    rcases List.mem_cons.mp hrecs with h | h
    · have hout := processFile_outputs res cls fr f st er (by rw [← h]; exact her)
      have hmono := processFiles_mono res cls fr rest (processFile res cls fr st f).1
      exact ⟨fun x hx => hmono (hout.1 x hx), fun x hx => hmono (hout.2 x hx)⟩
    · exact ih (processFile res cls fr st f).1 recs h er her

theorem pyOrNil_eq_nil_iff (o : Option (List String)) :
    pyOrNil o = [] ↔ (o = none ∨ o = some []) := by
  cases o with
  | none => simp [pyOrNil]
  | some l =>
    cases l with
    | nil => simp [pyOrNil]
    | cons a t => simp [pyOrNil]

theorem mem_pyOrNil (o : Option (List String)) (x : String) :
    x ∈ pyOrNil o ↔ ∃ l, o = some l ∧ x ∈ l := by
  cases o with
  | none => simp [pyOrNil]
  | some l =>
    cases l with
    | nil => simp [pyOrNil]
    | cons a t => simp [pyOrNil]

/-! ## Claim theorems -/

/-- C7: on every raw claims structure and relation property, the relation
extractor keeps only values whose datavalue type is `"wikibase-entityid"`;
an absent property or an empty filtered list yields `None` (never the empty
list); and `extract_qids` behaves identically to `extract`. -/
theorem c7_extract_relations (claims : Claims) (prop : String) :
    (lookupClaims claims prop = none → extract claims prop = none) ∧
    (∀ cs, lookupClaims claims prop = some cs → claimIds cs = [] →
      extract claims prop = none) ∧
    extract claims prop ≠ some [] ∧
    (∀ l, extract claims prop = some l → l ≠ [] ∧
      ∀ x ∈ l, ∃ cs, lookupClaims claims prop = some cs ∧
        ∃ c ∈ cs, c.datavalue = some ⟨"wikibase-entityid", x⟩) ∧
    extract_qids claims prop = extract claims prop := by
  refine ⟨?_, ?_, ?_, ?_, rfl⟩
  · intro h
    unfold extract
    rw [h]
  · intro cs h hcs
    unfold extract
    rw [h]
    simp [hcs]
  · intro hcontra
    cases hl : lookupClaims claims prop with
    | none =>
      have hnone : extract claims prop = none := by
        unfold extract
        rw [hl]
      rw [hnone] at hcontra
      cases hcontra
    | some cs =>
      have hval : extract claims prop =
          if (claimIds cs).isEmpty then none else some (claimIds cs) := by
        unfold extract
        rw [hl]
      rw [hval] at hcontra
      by_cases he : (claimIds cs).isEmpty
      · rw [if_pos he] at hcontra
        cases hcontra
      · rw [if_neg he] at hcontra
        have : claimIds cs = [] := Option.some_injective _ hcontra
        rw [this] at he
        exact he rfl
  · intro l hl
    cases hlc : lookupClaims claims prop with
    | none =>
      have hnone : extract claims prop = none := by
        unfold extract
        rw [hlc]
      rw [hnone] at hl
      cases hl
    | some cs =>
      have hval : extract claims prop =
          if (claimIds cs).isEmpty then none else some (claimIds cs) := by
        unfold extract
        rw [hlc]
      rw [hval] at hl
      by_cases he : (claimIds cs).isEmpty
      · rw [if_pos he] at hl
        cases hl
      · rw [if_neg he] at hl
        have hlcs : claimIds cs = l := Option.some_injective _ hl
        constructor
        · intro hnil
          apply he
          rw [hlcs, hnil]
          rfl
        · intro x hx
          rw [← hlcs] at hx
          rcases List.mem_filterMap.mp hx with ⟨c, hc, hfc⟩
          refine ⟨cs, rfl, c, hc, ?_⟩
          cases hdv : c.datavalue with
          | none =>
            rw [hdv] at hfc
            cases hfc
          | some dv =>
            rw [hdv] at hfc
            have hfc2 : (if (dv.dtype == "wikibase-entityid") = true
                then some dv.id else none) = some x := hfc
            by_cases ht : dv.dtype == "wikibase-entityid"
            · rw [if_pos ht] at hfc2
              have hid : dv.id = x := Option.some_injective _ hfc2
              have hdt : dv.dtype = "wikibase-entityid" := eq_of_beq ht
              obtain ⟨dt, di⟩ := dv
              simp only at hid hdt
              rw [hdt, hid]
            · rw [if_neg ht] at hfc2
              cases hfc2

/-- Witness for C7 at a concrete claims dictionary. -/
theorem c7_extract_relations_witness :
    extract claimsC7 "P279" = none ∧ extract claimsC7 "P31" ≠ some [] := by
  constructor
  · exact (c7_extract_relations claimsC7 "P279").1 (by decide)
  · exact (c7_extract_relations claimsC7 "P31").2.2.1

/-- C8: the identifier resolver is total over string inputs: a failed or
non-2xx or undecodable request (`net … = none`) yields `None`, a response in
which no page carries the `wikibase_item` page property yields `None`, and in
every case the embedded `get_wikidata_id` returns (it is a total function
into `Option String`, so no exception reaches the caller). -/
theorem c8_resolver_total (net : String → String → Option QueryResponse)
    (title wiki : String) :
    (net (deriveHost wiki) title = none → get_wikidata_id net title wiki = none) ∧
    (∀ data, net (deriveHost wiki) title = some data →
      (∀ p ∈ data.pages, lookupStr p.2.pageprops "wikibase_item" = none) →
      get_wikidata_id net title wiki = none) ∧
    (get_wikidata_id net title wiki = none ∨
      ∃ q, get_wikidata_id net title wiki = some q) := by
  refine ⟨?_, ?_, ?_⟩
  · intro h
    unfold get_wikidata_id
    rw [h]
  · intro data h hprops
    unfold get_wikidata_id
    rw [h]
    have hgen : ∀ pages, (∀ p ∈ pages, lookupStr p.2.pageprops "wikibase_item" = none) →
        findWikibaseItem pages = none := by
      intro pages
      induction pages with
      | nil => intro _; rfl
      | cons p rest ih =>
        intro hp
        obtain ⟨pid, page⟩ := p
        have hhead := hp (pid, page) (List.mem_cons_self _ _)
        simp only at hhead
        simp only [findWikibaseItem, hhead]
        exact ih (fun p2 hp2 => hp p2 (List.mem_cons_of_mem _ hp2))
    exact hgen data.pages hprops
  · cases hres : get_wikidata_id net title wiki with
    | none => exact Or.inl rfl
    | some v => exact Or.inr ⟨v, rfl⟩

/-- Witness for C8: a failing network and an item-free response both give
`None`. -/
theorem c8_resolver_total_witness :
    get_wikidata_id netNoneC8 "Paris" "enwiki" = none ∧
    get_wikidata_id netNoItemC8 "Paris" "enwiki" = none := by
  constructor
  · exact (c8_resolver_total netNoneC8 "Paris" "enwiki").1 rfl
  · exact (c8_resolver_total netNoItemC8 "Paris" "enwiki").2.1
      ⟨[("1", ⟨[]⟩), ("2", ⟨[("x", "y")]⟩)]⟩ rfl (by decide)

/-- C5: when the cache misses and computing `enrich_article` raises any
exception, `enrich_article_cached` stores and returns the safe placeholder
(`wikidata_id = None`, empty classification) instead of propagating. -/
theorem c5_exception_placeholder (res : String → String → Option QueryResponse)
    (cls : String → Except Unit Claims) (t w : String) (fr : Bool) (cache : Cache)
    (n : Nat) (e : Unit)
    (hmiss : cache (t, w) = none)
    (herr : enrich_article res cls t w fr = (n, .error e)) :
    (enrich_article_cached res cls t w fr cache).result = placeholderResult t w ∧
    (enrich_article_cached res cls t w fr cache).cache (t, w) =
      some (placeholderResult t w) := by
  simp only [enrich_article_cached, hmiss, herr]
  constructor
  · trivial
  · simp [cacheInsert]

/-- Witness for C5: a classifier that always raises, on an empty cache. -/
theorem c5_exception_placeholder_witness :
    (enrich_article_cached resolveNetQ1 classifyNetFail "Paris" "enwiki" true
        initialCache).result = placeholderResult "Paris" "enwiki" ∧
    (enrich_article_cached resolveNetQ1 classifyNetFail "Paris" "enwiki" true
        initialCache).cache ("Paris", "enwiki") =
      some (placeholderResult "Paris" "enwiki") :=
  c5_exception_placeholder resolveNetQ1 classifyNetFail "Paris" "enwiki" true
    initialCache 2 () rfl rfl

/-- C6: the enrichment cache is run-scoped and memoizing: the orchestrator's
initial state (module load) has an empty cache, and two consecutive cached
enrichments of the same `(title, wiki)` key—starting from any cache state—
invoke the resolver/classifier chain at most once in total. -/
theorem c6_cache_memoization :
    (∀ k, initOrchState.cache k = none) ∧
    (∀ (res : String → String → Option QueryResponse)
       (cls : String → Except Unit Claims) (t w : String) (fr : Bool)
       (cache : Cache),
      (enrich_article_cached res cls t w fr cache).computes +
        (enrich_article_cached res cls t w fr
          (enrich_article_cached res cls t w fr cache).cache).computes ≤ 1) := by
  constructor
  · intro k
    rfl
  · intro res cls t w fr cache
    cases hcase : cache (t, w) with
    | some v => simp [enrich_article_cached, hcase]
    | none => simp [enrich_article_cached, hcase, cacheInsert]

/-- C9: with `fetch_remote = false` the whole run issues zero HTTP requests,
skips the end-of-run batch-detail fetch, and every output record carries a
null identifier and empty relation lists. -/
theorem c9_offline_mode (res : String → String → Option QueryResponse)
    (cls : String → Except Unit Claims)
    (bat : List String → Option (List (String × RawEntity)))
    (now ts : String) (existing : Store) (files : List (List RawRecord)) :
    (enrich res cls bat now ts existing files false).requests = 0 ∧
    (enrich res cls bat now ts existing files false).batchFetches = 0 ∧
    (enrich res cls bat now ts existing files false).details = [] ∧
    ∀ recs ∈ (enrich res cls bat now ts existing files false).outputs,
      ∀ er ∈ recs,
        er.wikidata_id = none ∧ er.instance_of = [] ∧ er.subclass_of = [] := by
  have hinit : CacheOffline initOrchState.cache := fun k r h => Option.noConfusion h
  obtain ⟨_, hr, hout⟩ := offline_files res cls files initOrchState hinit
  simp only [enrich]
  rw [if_neg (fun h => Bool.false_ne_true h.1)]
  exact ⟨hr, rfl, rfl, hout⟩

/-- Witness for C9 at a concrete offline run. -/
theorem c9_offline_mode_witness :
    (enrich resolveNetParis classifyNetParis batchNetFail "T" "T" emptyStore
        parisFiles false).requests = 0 ∧
    (enrich resolveNetParis classifyNetParis batchNetFail "T" "T" emptyStore
        parisFiles false).batchFetches = 0 :=
  ⟨(c9_offline_mode resolveNetParis classifyNetParis batchNetFail "T" "T"
      emptyStore parisFiles).1,
   (c9_offline_mode resolveNetParis classifyNetParis batchNetFail "T" "T"
      emptyStore parisFiles).2.1⟩

/-- C10: the orchestrator writes the relation fields of every output record
as lists: a cached classification of `None` or of an empty list both produce
`[]` (the absent/empty distinction is not preserved), and a non-empty
classification is written through element-for-element. -/
theorem c10_relations_list_valued (res : String → String → Option QueryResponse)
    (cls : String → Except Unit Claims) (fr : Bool) (st : OrchState)
    (r : RawRecord) (v : ArticleResult)
    (hcache : st.cache (r.title, r.wiki) = some v) :
    ((processRecord res cls fr st r).2.instance_of = [] ↔
      (v.classification.instance_of = none ∨
        v.classification.instance_of = some [])) ∧
    ((processRecord res cls fr st r).2.subclass_of = [] ↔
      (v.classification.subclass_of = none ∨
        v.classification.subclass_of = some [])) ∧
    (∀ x, x ∈ (processRecord res cls fr st r).2.instance_of ↔
      ∃ l, v.classification.instance_of = some l ∧ x ∈ l) ∧
    (∀ x, x ∈ (processRecord res cls fr st r).2.subclass_of ↔
      ∃ l, v.classification.subclass_of = some l ∧ x ∈ l) := by
  have hi : (processRecord res cls fr st r).2.instance_of =
      pyOrNil v.classification.instance_of := by
    simp [processRecord, enrich_article_cached, hcache]
  have hs : (processRecord res cls fr st r).2.subclass_of =
      pyOrNil v.classification.subclass_of := by
    simp [processRecord, enrich_article_cached, hcache]
  refine ⟨?_, ?_, ?_, ?_⟩
  · rw [hi]
    exact pyOrNil_eq_nil_iff _
  · rw [hs]
    exact pyOrNil_eq_nil_iff _
  · intro x
    rw [hi]
    exact mem_pyOrNil _ x
  · intro x
    rw [hs]
    exact mem_pyOrNil _ x

/-- Witness for C10: a cached result with `instance_of = None` and
`subclass_of = []` produces `[]` for both output fields. -/
theorem c10_relations_list_valued_witness :
    (processRecord resolveNetQ1 classifyNetFail true stC10
        ⟨"A", "enwiki"⟩).2.instance_of = [] ∧
    (processRecord resolveNetQ1 classifyNetFail true stC10
        ⟨"A", "enwiki"⟩).2.subclass_of = [] := by
  have h := c10_relations_list_valued resolveNetQ1 classifyNetFail true stC10
    ⟨"A", "enwiki"⟩ resultC10 (by decide)
  exact ⟨h.1.mpr (Or.inl rfl), h.2.1.mpr (Or.inr rfl)⟩

/-- C1: details produced by the batch fetcher carry no
`first_seen_ingestion`; merging such a detail for an already-present key
keeps the stored `first_seen_ingestion` and overwrites every other field
from the new detail; a key absent from the store is inserted with
`first_seen_ingestion` set to the supplied ingestion timestamp; and no
sequence of merges of fetcher-shaped details ever changes a
`first_seen_ingestion` once set. -/
theorem c1_merge_first_seen :
    (∀ (net : List String → Option (List (String × RawEntity))) (now : String)
       (qids : List String) (bs : Nat),
      ∀ p ∈ get_wikidata_labels_batch net now qids bs,
        p.2.first_seen_ingestion = none) ∧
    (∀ (st : Store) (new : List (String × EntityDetail)) (ts q : String)
       (d old : EntityDetail),
      (new.map Prod.fst).Nodup → (q, d) ∈ new →
      d.first_seen_ingestion = none → st q = some old →
      (merge_entity_data st new ts).1 q =
        some { d with first_seen_ingestion := old.first_seen_ingestion }) ∧
    (∀ (st : Store) (new : List (String × EntityDetail)) (ts q : String)
       (d : EntityDetail),
      (new.map Prod.fst).Nodup → (q, d) ∈ new → st q = none →
      (merge_entity_data st new ts).1 q =
        some { d with first_seen_ingestion := some ts }) ∧
    (∀ (runs : List (List (String × EntityDetail) × String)) (st : Store)
       (q : String) (old : EntityDetail),
      (∀ r ∈ runs, ∀ p ∈ r.1, p.2.first_seen_ingestion = none) →
      st q = some old →
      ∃ e, (runs.foldl (fun s r => (merge_entity_data s r.1 r.2).1) st) q = some e ∧
        e.first_seen_ingestion = old.first_seen_ingestion) := by
  refine ⟨fetcher_no_first_seen, ?_, ?_, ?_⟩
  · intro st new ts q d old hnd hmem hd hq
    have h := mergeLoop_existing_key ts q d new st old hnd hmem hq
    have hupd : pyUpdate old d = { d with first_seen_ingestion := old.first_seen_ingestion } := by
      simp [pyUpdate, hd]
    rw [← hupd]
    exact h
  · intro st new ts q d hnd hmem hq
    exact mergeLoop_new_key ts q d new st hnd hmem hq
  · intro runs st q old h hq
    exact mergeRuns_preserve_first_seen q runs st old h hq

/-- Witness for C1: merging two fetched details into a store already holding
`Q1` keeps `Q1`'s original first-seen stamp and stamps the fresh `Q2` with
the run's ingestion timestamp. -/
theorem c1_merge_first_seen_witness :
    (merge_entity_data storeC1 [("Q1", detailA), ("Q2", detailB)] "T1").1 "Q1" =
      some { detailA with first_seen_ingestion := some "T0" } ∧
    (merge_entity_data storeC1 [("Q1", detailA), ("Q2", detailB)] "T1").1 "Q2" =
      some { detailB with first_seen_ingestion := some "T1" } := by
  constructor
  · exact c1_merge_first_seen.2.1 storeC1 [("Q1", detailA), ("Q2", detailB)]
      "T1" "Q1" detailA storedOld (by decide) (by decide) (by decide) (by decide)
  · exact c1_merge_first_seen.2.2.1 storeC1 [("Q1", detailA), ("Q2", detailB)]
      "T1" "Q2" detailB (by decide) (by decide) (by decide)

/-- C4 counterexample: `merge_entity_data` does not leave its `new_entities`
argument unchanged — a detail under a key absent from the store comes back
with `first_seen_ingestion` added in place. -/
theorem c4_merge_mutates_input :
    (merge_entity_data emptyStore [("Q1", detailA)] "T1").2 ≠ [("Q1", detailA)] ∧
    (merge_entity_data emptyStore [("Q1", detailA)] "T1").2 =
      [("Q1", { detailA with first_seen_ingestion := some "T1" })] := by
  constructor
  · decide
  · decide

/-- C4 amended: the merge is a pure in-model function of its inputs
(its only I/O is the read of the decoded existing store it receives), but it
mutates `new_entities` in place: with distinct keys, each detail whose key is
absent from the existing store gains `first_seen_ingestion :=
ingestion_timestamp`, while details for already-present keys are left
unchanged. -/
theorem c4_merge_mutation_characterization (st : Store)
    (new : List (String × EntityDetail)) (ts : String)
    (hnd : (new.map Prod.fst).Nodup) :
    (merge_entity_data st new ts).2 =
      new.map (fun p =>
        if (st p.1).isSome then p
        else (p.1, { p.2 with first_seen_ingestion := some ts })) :=
  mergeLoop_snd_characterization ts new st hnd

/-- Witness for C4's amended statement at a concrete merge. -/
theorem c4_merge_mutation_witness :
    (merge_entity_data storeC1 [("Q1", detailA), ("Q2", detailB)] "T1").2 =
      [("Q1", detailA),
       ("Q2", { detailB with first_seen_ingestion := some "T1" })] := by
  have h := c4_merge_mutation_characterization storeC1
    [("Q1", detailA), ("Q2", detailB)] "T1" (by decide)
  rw [h]
  decide

/-- C3: in a multi-batch detail fetch, batches fail independently: every
identifier of a batch whose request fails maps to the minimal fallback
detail (label = the identifier, null description, absent relations,
`last_updated` = now), while an identifier of a batch whose request succeeds
maps to its parsed fetched detail; the embedded fetcher is a total function,
so the call as a whole never fails. -/
theorem c3_batch_isolation
    (net : List String → Option (List (String × RawEntity))) (now : String)
    (qids : List String) (bs : Nat) (hbs : 1 ≤ bs)
    (hresp : ∀ b resp, net b = some resp → resp.map Prod.fst = b)
    (q : String) (b : List String)
    (hb : b ∈ batchesOf bs (uniqueQids qids)) (hq : q ∈ b) :
    (net b = none →
      dictLookup (get_wikidata_labels_batch net now qids bs) q =
        some { label := q, description := none, instance_of := none,
               subclass_of := none, last_updated := now,
               first_seen_ingestion := none }) ∧
    (∀ resp raw, net b = some resp → (q, raw) ∈ resp →
      dictLookup (get_wikidata_labels_batch net now qids bs) q =
        some (parseEntity now q raw)) := by
  obtain ⟨pre, post, hsplit⟩ := List.append_of_mem hb
  have hflat : (batchesOf bs (uniqueQids qids)).flatten = uniqueQids qids :=
    batchesOf_flatten bs hbs _
  have hnd : ((batchesOf bs (uniqueQids qids)).flatten).Nodup := by
    rw [hflat]
    exact uniqueQids_nodup qids
  rw [hsplit] at hnd
  rw [show (pre ++ b :: post).flatten = pre.flatten ++ (b ++ post.flatten) by
    simp [List.flatten_append, List.flatten_cons]] at hnd
  obtain ⟨hndpre, hndrest, hdisj1⟩ := List.nodup_append.mp hnd
  obtain ⟨hndb, hndpost, hdisj2⟩ := List.nodup_append.mp hndrest
  have hqnotpre : q ∉ pre.flatten :=
    fun hcontra => hdisj1 hcontra (List.mem_append_left _ hq)
  have hqnotpost : q ∉ post.flatten := fun hcontra => hdisj2 hq hcontra
  have hres : get_wikidata_labels_batch net now qids bs =
      (pre.map (processBatch net now)).flatten ++
        (processBatch net now b ++ (post.map (processBatch net now)).flatten) := by
    unfold get_wikidata_labels_batch
    rw [hsplit]
    simp [List.map_append, List.map_cons, List.flatten_append, List.flatten_cons]
  have hkeypost : ∀ p ∈ (post.map (processBatch net now)).flatten, p.1 ≠ q := by
    intro p hp hcontra
    rcases List.mem_flatten.mp hp with ⟨seg, hseg, hpseg⟩
    rcases List.mem_map.mp hseg with ⟨b2, hb2, hbseg⟩
    have hpb2 : p.1 ∈ b2 :=
      processBatch_keys net now b2 (fun resp h => hresp b2 resp h) p
        (by rw [hbseg]; exact hpseg)
    apply hqnotpost
    rw [← hcontra]
    exact List.mem_flatten.mpr ⟨b2, hb2, hpb2⟩
  have hmain : ∀ v, dictLookup (processBatch net now b) q = some v →
      dictLookup (get_wikidata_labels_batch net now qids bs) q = some v := by
    intro v hv
    have h1 : dictLookup
        (processBatch net now b ++ (post.map (processBatch net now)).flatten) q =
        some v := by
      rw [dictLookup_append, dictLookup_eq_none _ _ hkeypost]
      exact hv
    rw [hres, dictLookup_append, h1]
  constructor
  · intro hnet
    apply hmain
    unfold processBatch
    rw [hnet]
    exact dictLookup_map_self (fallbackEntity now) b q hq
  · intro resp raw hnet hmem
    apply hmain
    unfold processBatch
    rw [hnet]
    apply dictLookup_assoc_nodup
    · rw [show (resp.map
          (fun p => (p.1, parseEntity now p.1 p.2))).map Prod.fst =
            resp.map Prod.fst by rw [List.map_map]; rfl]
      rw [hresp b resp hnet]
      exact hndb
    · exact List.mem_map.mpr ⟨(q, raw), hmem, rfl⟩

/-- Witness for C3: with batch size 1, the batch for `Q1` fails and the
batch for `Q2` succeeds; `Q1` gets the fallback entry while `Q2` gets its
real parsed detail. -/
theorem c3_batch_isolation_witness :
    dictLookup (get_wikidata_labels_batch batchNetC3 "T" ["Q1", "Q2"] 1) "Q1" =
      some { label := "Q1", description := none, instance_of := none,
             subclass_of := none, last_updated := "T",
             first_seen_ingestion := none } ∧
    dictLookup (get_wikidata_labels_batch batchNetC3 "T" ["Q1", "Q2"] 1) "Q2" =
      some (parseEntity "T" "Q2" rawQ2) := by
  have hresp : ∀ b resp, batchNetC3 b = some resp → resp.map Prod.fst = b := by
    intro b resp h
    by_cases hb : b = ["Q2"]
    · rw [hb] at h ⊢
      have h2 : [("Q2", rawQ2)] = resp := Option.some_injective _ h
      rw [← h2]
      rfl
    · exfalso
      rw [show batchNetC3 b = none by unfold batchNetC3; rw [if_neg hb]] at h
      cases h
  constructor
  · exact (c3_batch_isolation batchNetC3 "T" ["Q1", "Q2"] 1 (by decide) hresp
      "Q1" ["Q1"] (by decide) (by decide)).1 rfl
  · exact (c3_batch_isolation batchNetC3 "T" ["Q1", "Q2"] 1 (by decide) hresp
      "Q2" ["Q2"] (by decide) (by decide)).2 [("Q2", rawQ2)] rawQ2 rfl
      (List.mem_cons_self _ _)

/-- C2 counterexample: on the spec's own Paris example the record resolves
to `Q90` with `instance_of = [Q515]`, yet the run's collected identifier set
is exactly Q515 — the record's own resolved identifier `Q90` is not part of
the end-of-run batch-detail fetch. -/
theorem c2_own_id_not_collected :
    (enrich resolveNetParis classifyNetParis batchNetFail "T" "T" emptyStore
        parisFiles true).outputs =
      [[{ title := "Paris", wiki := "enwiki", wikidata_id := some "Q90",
          instance_of := ["Q515"], subclass_of := [] }]] ∧
    (enrich resolveNetParis classifyNetParis batchNetFail "T" "T" emptyStore
        parisFiles true).all_qids = {"Q515"} ∧
    "Q90" ∉ (enrich resolveNetParis classifyNetParis batchNetFail "T" "T"
        emptyStore parisFiles true).all_qids ∧
    (enrich resolveNetParis classifyNetParis batchNetFail "T" "T" emptyStore
        parisFiles true).batchFetches = 1 := by
  refine ⟨by decide, by decide, by decide, by decide⟩

/-- C2 amended: after all files are processed the orchestrator issues
exactly one batch-detail fetch, over exactly the run's collected identifier
set, and that set contains every identifier appearing in any output
record's `instance_of`/`subclass_of` lists; the records' own resolved
entity identifiers are not added to it. -/
theorem c2_single_batch_fetch (res : String → String → Option QueryResponse)
    (cls : String → Except Unit Claims)
    (bat : List String → Option (List (String × RawEntity)))
    (now ts : String) (ex : Store) (files : List (List RawRecord))
    (h : (enrich res cls bat now ts ex files true).all_qids ≠ ∅) :
    (enrich res cls bat now ts ex files true).batchFetches = 1 ∧
    (enrich res cls bat now ts ex files true).details =
      get_wikidata_labels_batch bat now
        ((enrich res cls bat now ts ex files true).all_qids.sort
          (fun a b => a ≤ b)) 50 ∧
    ∀ recs ∈ (enrich res cls bat now ts ex files true).outputs, ∀ er ∈ recs,
      (∀ x ∈ er.instance_of,
        x ∈ (enrich res cls bat now ts ex files true).all_qids) ∧
      (∀ x ∈ er.subclass_of,
        x ∈ (enrich res cls bat now ts ex files true).all_qids) := by
  have hq : (enrich res cls bat now ts ex files true).all_qids =
      (processFiles res cls true initOrchState files).1.all_qids := by
    simp only [enrich]
    split
    · rfl
    · rfl
  have hout : (enrich res cls bat now ts ex files true).outputs =
      (processFiles res cls true initOrchState files).2 := by
    simp only [enrich]
    split
    · rfl
    · rfl
  have hcond : (processFiles res cls true initOrchState files).1.all_qids ≠ ∅ := by
    rw [← hq]
    exact h
  have hbf : (enrich res cls bat now ts ex files true).batchFetches = 1 := by
    simp only [enrich]
    rw [if_pos ⟨trivial, hcond⟩]
  have hdet : (enrich res cls bat now ts ex files true).details =
      get_wikidata_labels_batch bat now
        ((processFiles res cls true initOrchState files).1.all_qids.sort
          (fun a b => a ≤ b)) 50 := by
    simp only [enrich]
    rw [if_pos ⟨trivial, hcond⟩]
  refine ⟨hbf, ?_, ?_⟩
  · rw [hdet, hq]
  · intro recs hrecs er her
    rw [hout] at hrecs
    rw [hq]
    exact processFiles_outputs res cls true files initOrchState recs hrecs er her

/-- Witness for C2's amended statement on the Paris run. -/
theorem c2_single_batch_fetch_witness :
    (enrich resolveNetParis classifyNetParis batchNetFail "T" "T" emptyStore
        parisFiles true).batchFetches = 1 :=
  (c2_single_batch_fetch resolveNetParis classifyNetParis batchNetFail "T" "T"
    emptyStore parisFiles (by decide)).1

/-- Witness for C6 at a concrete pair of identical lookups. -/
theorem c6_cache_memoization_witness :
    (enrich_article_cached resolveNetQ1 classifyNetFail "A" "enwiki" true
        initialCache).computes +
      (enrich_article_cached resolveNetQ1 classifyNetFail "A" "enwiki" true
        (enrich_article_cached resolveNetQ1 classifyNetFail "A" "enwiki" true
          initialCache).cache).computes ≤ 1 :=
  c6_cache_memoization.2 resolveNetQ1 classifyNetFail "A" "enwiki" true
    initialCache

end Wikistats
